import Mathlib

/-!
Verification development for the shlep source-to-source shell transformer:
a shallow embedding of its tree model, traversal engine (src/traverse.ts),
code generator (codegen) and import resolver (the Context class), together
with theorems settling the specification's claims about them.
-/

set_option maxHeartbeats 1000000

namespace Shlep

/--
The AST node kinds the core logic inspects or rewrites
(types/bash-parser/bash-ast.d.ts, restricted per spec section 3 to
Script, Command, Function, Name, Word, AssignmentWord, CompoundList, If).
Optional fields mirror the JavaScript code's truthiness checks:
`Command.name`, `Command.pfx` (the source's prefix list), `Command.suffix`
may be absent, and the three `If` slots are checked for presence by the
code generator.
-/
inductive Node where
  | Script (commands : List Node)
  | Command (name : Option Node) (pfx : Option (List Node)) (suffix : Option (List Node))
  | Function (name : Node) (body : Node)
  | Name (text : String)
  | Word (text : String)
  | AssignmentWord (text : String)
  | CompoundList (commands : List Node)
  | If (clause : Option Node) (thenPart : Option Node) (elsePart : Option Node)

/--
A JavaScript value flowing through the traversal: `null`, `undefined`,
a single node, or an array of nodes (a visitor may return an array to be
spliced into a sequence field).
-/
inductive JValue where
  | null
  | undefined
  | node (n : Node)
  | arr (ns : List Node)

/-- The `type` tag of a node, as dispatched on by `visit`. -/
def Node.typeTag : Node → String
  | .Script _ => "Script"
  | .Command _ _ _ => "Command"
  | .Function _ _ => "Function"
  | .Name _ => "Name"
  | .Word _ => "Word"
  | .AssignmentWord _ => "AssignmentWord"
  | .CompoundList _ => "CompoundList"
  | .If _ _ _ => "If"

/--
Reading `.text` of a node, as the JavaScript code does on `Name`, `Word`
and `AssignmentWord` nodes; on a node kind without a `text` field the
read yields `undefined`, which JavaScript string interpolation renders
as the string "undefined".
-/
def Node.textOf : Node → String
  | .Name t => t
  | .Word t => t
  | .AssignmentWord t => t
  | _ => "undefined"

/-- Assigning `.text` of a node in place; no-op on kinds without the field. -/
def Node.withText : Node → String → Node
  | .Name _, s => .Name s
  | .Word _, s => .Word s
  | .AssignmentWord _, s => .AssignmentWord s
  | n, _ => n

/-- Reading `.commands` of a `Script` or `CompoundList` node. -/
def Node.commandsOf : Node → List Node
  | .Script cs => cs
  | .CompoundList cs => cs
  | _ => []

/--
A visitor handler as called by `visit`: it receives the node and the
`(parent, root)` context and yields a JavaScript value (traversal
failures, i.e. thrown exceptions, are `Except.error`).
-/
abbrev Handler := Node → Option Node → Node → Except String JValue

/--
A visitor table (traverse.ts `Visitor`): a partial mapping from node type
tags to handlers, with an optional `defaultMethod` fallback.
-/
structure Visitor where
  handlers : String → Option Handler
  defaultMethod : Option Handler

/-- The empty visitor table, `{}` in JavaScript. -/
def emptyVisitor : Visitor := { handlers := fun _ => none, defaultMethod := none }

/--
visit from src/traverse.ts for a single visitor table: null and undefined
input both return `null`; otherwise the handler for `node.type` (falling
back to `defaultMethod`, else keeping the node) runs, and an `undefined`
return keeps the original node. An array input has no `type` tag, so no
handler matches and it passes through. The source's other branch, where
the visitor argument is itself an array of visitors folded left to right,
is embedded at `traverseNode` below, which is its only call site.
-/
def visit (v : Visitor) (parent : Option Node) (root : Node) : JValue → Except String JValue
  | .null => .ok .null
  | .undefined => .ok .null
  | .arr ns => .ok (.arr ns)
  | .node n => do
    let out ← match v.handlers n.typeTag with
      | some h => h n parent root
      | none =>
        match v.defaultMethod with
        | some d => d n parent root
        | none => pure (.node n)
    pure (match out with
      | .undefined => .node n
      | o => o)

/-- The handler `visit` resolves for a node: the type-tagged one, else `defaultMethod`. -/
def resolvedHandler (v : Visitor) (n : Node) : Option Handler :=
  match v.handlers n.typeTag with
  | some h => some h
  | none => v.defaultMethod

/-- Keep the original child when a single-field rewrite did not produce a node. -/
def keepNode (orig : Node) : JValue → Node
  | .node m => m
  | _ => orig

/--
Result of rewriting an optional single child field: a node result is
stored, null or undefined clears the field, and an array result (which
the source would store as an ill-typed field value) keeps the original
child in this model.
-/
def keepOptNode (orig : Node) : JValue → Option Node
  | .node m => some m
  | .null => none
  | .undefined => none
  | .arr _ => some orig

/-- Splicing a child rewrite result into a sequence field: a node stays a singleton, an array is spliced, null or undefined omits the element. -/
def spliced : JValue → List Node
  | .node m => [m]
  | .arr ms => ms
  | .null => []
  | .undefined => []

mutual
/--
The full per-node traversal chain of traverse.ts `traverseNode`:
`visit(node, [parent, ast, visitor], [DescendVisitor, visitor])`, i.e.
first the Generic Descend Step rewrites every structural child through
the same chain, then the user visitor runs on the descended node.
The descend behaviour itself is modelled from the spec: the
descend-visitor module is not under src/; per spec section 4.1 every
composite node kind rewrites each structural child field (splicing
arrays and omitting nulls inside sequence fields), and leaf kinds pass
through to the user visitor unchanged.
-/
def travN (uv : Visitor) (root : Node) (parent : Option Node) (n : Node) : Except String JValue := do
  let d ← match n with
    | .Script cs => do pure (Node.Script (← travList uv root (Node.Script cs) cs))
    | .CompoundList cs => do pure (Node.CompoundList (← travList uv root (Node.CompoundList cs) cs))
    | .Command nm p s => do
      pure (Node.Command (← travOpt uv root (Node.Command nm p s) nm)
        (← travOptList uv root (Node.Command nm p s) p)
        (← travOptList uv root (Node.Command nm p s) s))
    | .Function nm body => do
      pure (Node.Function (keepNode nm (← travN uv root (some (Node.Function nm body)) nm))
        (keepNode body (← travN uv root (some (Node.Function nm body)) body)))
    | .If c t e => do
      pure (Node.If (← travOpt uv root (Node.If c t e) c)
        (← travOpt uv root (Node.If c t e) t)
        (← travOpt uv root (Node.If c t e) e))
    | leaf => pure leaf
  visit uv parent root (.node d)

/-- Descend into an optional single child field (absent fields visit as null and stay absent). -/
def travOpt (uv : Visitor) (root : Node) (p : Node) : Option Node → Except String (Option Node)
  | none => pure none
  | some c => do pure (keepOptNode c (← travN uv root (some p) c))

/-- Descend into an optional sequence field. -/
def travOptList (uv : Visitor) (root : Node) (p : Node) : Option (List Node) → Except String (Option (List Node))
  | none => pure none
  | some l => do pure (some (← travList uv root p l))

/-- Descend into a sequence field element by element, splicing each child's rewrite result. -/
def travList (uv : Visitor) (root : Node) (p : Node) : List Node → Except String (List Node)
  | [] => pure []
  | c :: rest => do
    let r ← travN uv root (some p) c
    let rest' ← travList uv root p rest
    pure (spliced r ++ rest')
end

/--
The Generic Descend Step applied to one node: every structural child is
rewritten through the full traversal chain and a node of the same kind is
reassembled. Modelled from the spec (the descend-visitor module is not
under src/); its body parallels the inner match of `travN`.
-/
def descendChildren (uv : Visitor) (root : Node) (n : Node) : Except String Node :=
  match n with
  | .Script cs => do pure (Node.Script (← travList uv root (Node.Script cs) cs))
  | .CompoundList cs => do pure (Node.CompoundList (← travList uv root (Node.CompoundList cs) cs))
  | .Command nm p s => do
    pure (Node.Command (← travOpt uv root (Node.Command nm p s) nm)
      (← travOptList uv root (Node.Command nm p s) p)
      (← travOptList uv root (Node.Command nm p s) s))
  | .Function nm body => do
    pure (Node.Function (keepNode nm (← travN uv root (some (Node.Function nm body)) nm))
      (keepNode body (← travN uv root (some (Node.Function nm body)) body)))
  | .If c t e => do
    pure (Node.If (← travOpt uv root (Node.If c t e) c)
      (← travOpt uv root (Node.If c t e) t)
      (← travOpt uv root (Node.If c t e) e))
  | leaf => pure leaf

/--
traverseNode from src/traverse.ts, as a function of the user visitor and
the ambient context: null and undefined input short-circuit to null (the
guard at the top of `visit`), and a node input runs the descend-then-visit
chain `travN`.
-/
def traverseNode (uv : Visitor) (root : Node) (parent : Option Node) : JValue → Except String JValue
  | .null => .ok .null
  | .undefined => .ok .null
  | .arr ns => .ok (.arr ns)
  | .node n => travN uv root parent n

/-- traverse from src/traverse.ts: `traverseNode(null, ast, visitor)(ast)`. -/
def traverse (ast : Node) (visitor : Visitor) : Except String JValue :=
  traverseNode visitor ast none (.node ast)

mutual
/--
The textual source of a node under the codegen visitor (codegen.ts): the
`source` property each handler installs is a plain getter with no cache,
so a read recomputes the string from the current children; `source` is
therefore a function of the current tree, defined per node kind exactly
as the handlers compute it. `Script` and `CompoundList` newline-join
their commands' sources; text leaves yield their `text`; `Function`
yields the name's text and the body's source in the function template;
`Command` space-joins prefix and suffix around the name's source with a
literal space on each side; `If` reproduces the source's template where
the `then` and `else` segments appear only when their joined strings are
non-empty (JavaScript `&&` on a string tests emptiness, not branch
presence).
-/
def sourceOf : Node → String
  | .Script cs => String.intercalate "\n" (sourcesOf cs)
  | .CompoundList cs => String.intercalate "\n" (sourcesOf cs)
  | .Word t => t
  | .AssignmentWord t => t
  | .Name t => t
  | .Function nm body => Node.textOf nm ++ "() \x7b\n  " ++ sourceOf body ++ "\n\x7d"
  | .Command nm p s =>
    optListJoin " " p ++ " " ++ optSource nm ++ " " ++ optListJoin " " s
  | .If c t e =>
    let cl := optBranchJoin " " c
    let th := optBranchJoin "\n" t
    let el := optBranchJoin " " e
    "if " ++ cl ++ "\n" ++ (if th = "" then "" else "then\n" ++ th ++ "\n")
      ++ (if el = "" then "" else "else\n" ++ el ++ "\n") ++ "\nfi"

/-- The sources of a list of sibling nodes, in order. -/
def sourcesOf : List Node → List String
  | [] => []
  | c :: rest => sourceOf c :: sourcesOf rest

/-- Join the sources of an optional word list (`Command.prefix`/`Command.suffix`); an absent list yields the empty string. -/
def optListJoin (sep : String) : Option (List Node) → String
  | some l => String.intercalate sep (sourcesOf l)
  | none => ""

/-- The source of an optional node (`Command.name`); an absent node yields the empty string. -/
def optSource : Option Node → String
  | some w => sourceOf w
  | none => ""

/--
Join the command sources of an optional `If` branch: the source reads
`.commands` of the branch and joins the children's sources with the
given separator; an absent branch yields the empty string (a present
branch of a kind without a `.commands` field, on which the source would
throw, also yields the empty string in this model).
-/
def optBranchJoin (sep : String) : Option Node → String
  | some (.CompoundList cs) => String.intercalate sep (sourcesOf cs)
  | some (.Script cs) => String.intercalate sep (sourcesOf cs)
  | some _ => ""
  | none => ""
end

/--
The external collaborators of the import resolver (spec section 6): the
filesystem as a partial map from path to content (`existsSync p` is
`(fs p).isSome`, `readFileSync` fails on a missing path), the external
`parse` service, which throws on malformed input, and the path helpers
`resolve`, `dirname`, `basename`, `extname` of the platform library,
taken as oracle functions exactly as the source calls them.
-/
structure Env where
  fs : String → Option String
  parseF : String → Except String Node
  resolve : String → String → String
  dirname : String → String
  basename : String → String → String
  extname : String → String

/-- The Context state (part_001): the filename being processed and its parsed tree. -/
structure Context where
  filename : String
  ast : Node

/--
Renaming one collected function: `func.name.text` is mutated in place to
`"<module>::<original-name>"`; nodes of other kinds are untouched (the
source only ever applies this to `Function` nodes).
-/
def renameFunc (mod : String) : Node → Node
  | .Function nm body => .Function (nm.withText (mod ++ "::" ++ nm.textOf)) body
  | other => other

/--
The import path resolution of part_001 lines 33 to 35: resolve the
argument against the importing file's directory, and when that literal
path does not exist on disk, fall back to the same path with `.sh`
appended.
-/
def resolvedImportPath (env : Env) (ctx : Context) (arg : String) : String :=
  let file0 := env.resolve (env.dirname ctx.filename) arg
  if (env.fs file0).isSome then file0 else file0 ++ ".sh"

/--
Context.Import from part_001: filter the command's suffix for `Word`
nodes, resolve the first one's text against the importing file's
directory, fall back to the `.sh`-suffixed path when the literal path
does not exist, read and parse the target, collect the top-level
`Function` commands, and return them renamed with the
`<basename-without-extension>::` module prefix. A missing suffix, a
missing first argument, an unreadable path and a parse failure all throw
(Except.error), as the JavaScript run does.
-/
def Context.Import (env : Env) (ctx : Context) (cmd : Node) : Except String (List Node) := do
  let sfx ← match cmd with
    | .Command _ _ (some s) => pure s
    | _ => Except.error "TypeError: cmd.suffix is undefined"
  let argv := sfx.filter (fun c => c.typeTag == "Word")
  match argv with
  | [] => Except.error "TypeError: cannot read property text of undefined"
  | a :: _ =>
    let file := resolvedImportPath env ctx a.textOf
    match env.fs file with
    | none => Except.error ("ENOENT: no such file or directory: " ++ file)
    | some content => do
      let ast ← env.parseF content
      let funcs := ast.commandsOf.filter (fun c => c.typeTag == "Function")
      let mod := env.basename file (env.extname file)
      pure (funcs.map (renameFunc mod))

/--
Context.Command from part_001, the `Command` visitor: a command with no
name returns undefined; a command named `import` returns the array of
inlined functions from `Context.Import`; any other name falls out of the
switch and returns undefined.
-/
def Context.Command (env : Env) (ctx : Context) (cmd : Node) : Except String JValue :=
  match cmd with
  | .Command (some nm) _ _ =>
    if nm.textOf == "import" then do pure (JValue.arr (← Context.Import env ctx cmd))
    else pure .undefined
  | _ => pure .undefined

/--
The Context object viewed as a visitor table: of the node type tags, only
`Command` names a method of the class, so it is the only handler; there
is no `defaultMethod`.
-/
def Context.visitor (env : Env) (ctx : Context) : Visitor :=
  { handlers := fun tag =>
      if tag = "Command" then some (fun n _ _ => Context.Command env ctx n) else none,
    defaultMethod := none }

/--
Context.process from part_001 composed with the entry point's
`.toString()` call: run the import-resolution traversal over the tree,
then the generated source of the resulting root is the program's output.
A traversal error aborts with no output.
-/
def Context.process (env : Env) (ctx : Context) : Except String String := do
  match ← traverse ctx.ast (Context.visitor env ctx) with
  | .node n => pure (sourceOf n)
  | _ => Except.error "TypeError: output is not a node"

/-! Claim-side definitions: formulations written from the specification's
words, for comparison against the embedded source functions above. -/

/-- How `visit` treats a handler's return value, per the spec: `undefined` keeps the original node, any other value becomes the result. -/
def keptResult (n : Node) : JValue → JValue
  | .undefined => .node n
  | o => o

/-- Spec-side test for a `Word` node, as the import resolver's suffix filter describes it. -/
def isWordNode : Node → Bool
  | .Word _ => true
  | _ => false

/-- Spec-side test for a `Function` node, as the import collection step describes it. -/
def isFunctionNode : Node → Bool
  | .Function _ _ => true
  | _ => false

/-- The inlined replacement C1 describes: the module's top-level `Function` commands, each renamed with the module prefix derived from the resolved file's basename without its extension. -/
def inlinedFunctions (env : Env) (file : String) (ast : Node) : List Node :=
  (ast.commandsOf.filter isFunctionNode).map (renameFunc (env.basename file (env.extname file)))

/-- The `commands` list of an optional `If` branch, as the spec-side `If` source formula reads it. -/
def branchCommands : Option Node → List Node
  | some b => b.commandsOf
  | none => []

/-- The `Command` source formula exactly as the spec states it: prefix sources space-joined, a literal space, the name's source or the empty string, a literal space, suffix sources space-joined. -/
def commandSourceSpec (nm : Option Node) (p s : Option (List Node)) : String :=
  String.intercalate " " ((p.getD []).map sourceOf) ++ " "
    ++ (match nm with | some w => sourceOf w | none => "") ++ " "
    ++ String.intercalate " " ((s.getD []).map sourceOf)

/-- The `If` source formula exactly as claim C7 states it: the `then` and `else` segments are conditioned on the branch EXISTING, not on its joined source being non-empty. -/
def ifSourceClaim (c t e : Option Node) : String :=
  "if " ++ String.intercalate " " ((branchCommands c).map sourceOf) ++ "\n"
    ++ (match t with
        | some tb => "then\n" ++ String.intercalate "\n" (tb.commandsOf.map sourceOf) ++ "\n"
        | none => "")
    ++ (match e with
        | some eb => "else\n" ++ String.intercalate " " (eb.commandsOf.map sourceOf) ++ "\n"
        | none => "")
    ++ "\nfi"

/-- Mutating a command's `name.text` in place, the scenario of claim C9 (a child's text changed between two reads of the parent's `source`). -/
def setCmdNameText (n : Node) (s : String) : Node :=
  match n with
  | .Command (some w) p sfx => .Command (some (w.withText s)) p sfx
  | other => other

/-! Concrete fixtures for witnesses. -/

/-- A trivial environment: an empty filesystem and inert path helpers. -/
def envTriv : Env :=
  { fs := fun _ => none,
    parseF := fun _ => .error "parse error",
    resolve := fun d pth => d ++ "/" ++ pth,
    dirname := fun _ => "",
    basename := fun pth _ => pth,
    extname := fun _ => "" }

/-- A trivial context over an empty script. -/
def ctxTriv : Context := ⟨"main.sh", .Script []⟩

/-- A visitor whose every handler replaces the node with `null`. -/
def nullingVisitor : Visitor :=
  { handlers := fun _ => some (fun _ _ _ => .ok .null), defaultMethod := none }

/-- A visitor that rewrites every `Word` to `Word "b"` and replaces a `Command` by a `Word` carrying the command name's text, to observe which child the `Command` handler sees. -/
def childObservingVisitor : Visitor :=
  { handlers := fun tag =>
      if tag = "Word" then some (fun _ _ _ => .ok (.node (.Word "b")))
      else if tag = "Command" then
        some (fun n _ _ => .ok (.node (.Word (match n with
          | .Command (some w) _ _ => w.textOf
          | _ => "?"))))
      else none,
    defaultMethod := none }

/-- The environment of the import-inlining scenario: one importable file `/proj/util.sh` whose parse result holds one top-level function and one function nested inside an `if`. -/
def envImp : Env :=
  { fs := fun pth => if pth = "/proj/util.sh" then some "UTILSRC" else none,
    parseF := fun src =>
      if src = "UTILSRC" then
        .ok (.Script
          [.Function (.Name "greet")
            (.CompoundList [.Command (some (.Word "echo")) none (some [.Word "hi"])]),
          .If (some (.CompoundList []))
            (some (.CompoundList [.Function (.Name "nested") (.CompoundList [])])) none])
      else .error "parse error",
    resolve := fun d pth => d ++ "/" ++ pth,
    dirname := fun _ => "/proj",
    basename := fun _ _ => "util",
    extname := fun _ => ".sh" }

/-- The importing context of the inlining scenario. -/
def ctxImp : Context := ⟨"/proj/main.sh", .Script []⟩

/-- The `import util` command of the inlining scenario. -/
def importCmd : Node := .Command (some (.Word "import")) none (some [.Word "util"])

/-- A context whose whole script is a single `import missing` command over the empty filesystem. -/
def ctxMissing : Context :=
  ⟨"main.sh", .Script [.Command (some (.Word "import")) none (some [.Word "missing"])]⟩

/-! Helper lemmas. -/

/-- The chain of `traverseNode` factors as the descend step followed by the user visit. -/
theorem travN_eq_descend_then_visit (uv : Visitor) (root : Node) (parent : Option Node) (n : Node) :
    travN uv root parent n =
      descendChildren uv root n >>= (fun d => visit uv parent root (.node d)) := by
  cases n <;> simp only [travN, descendChildren, bind_assoc, pure_bind]

/-- Visiting any node with the empty visitor table keeps it. -/
theorem visit_empty (parent : Option Node) (root : Node) (n : Node) :
    visit emptyVisitor parent root (.node n) = .ok (.node n) := rfl

/-- Joining an empty source list yields the empty string. -/
theorem intercalate_nil (sep : String) : String.intercalate sep [] = "" := rfl

/-- The sibling-source list is the elementwise map of `sourceOf`. -/
theorem sourcesOf_eq_map (l : List Node) : sourcesOf l = l.map sourceOf := by
  induction l with
  | nil => rfl
  | cons c rest ih => simp [sourcesOf, ih]

/-- The branch join of the `If` source rule, restated through `branchCommands`. -/
theorem optBranchJoin_eq (sep : String) (o : Option Node) :
    optBranchJoin sep o = String.intercalate sep ((branchCommands o).map sourceOf) := by
  cases o with
  | none => rfl
  | some b =>
    cases b <;>
      first
      | rfl
      | simp [optBranchJoin, branchCommands, Node.commandsOf, sourcesOf_eq_map]

/-- The type-tag test the import resolver filters suffix words with agrees with the spec-side `Word` test. -/
theorem typeTag_word (c : Node) : (c.typeTag == "Word") = isWordNode c := by
  cases c <;> rfl

/-- The type-tag test the import resolver collects functions with agrees with the spec-side `Function` test. -/
theorem typeTag_function (c : Node) : (c.typeTag == "Function") = isFunctionNode c := by
  cases c <;> rfl

/-- Every node has positive size. -/
theorem sizeOf_node_pos (n : Node) : 0 < sizeOf n := by
  cases n <;> simp_arith

/-- Every node list has positive size. -/
theorem sizeOf_nlist_pos (l : List Node) : 0 < sizeOf l := by
  cases l <;> simp_arith

/-- Every optional node has positive size. -/
theorem sizeOf_nopt_pos (o : Option Node) : 0 < sizeOf o := by
  cases o <;> simp_arith

/-- Every optional node list has positive size. -/
theorem sizeOf_noptlist_pos (o : Option (List Node)) : 0 < sizeOf o := by
  cases o <;> simp_arith

/-- With the empty visitor table, the whole traversal chain keeps every node, list and optional field, by strong induction on size. -/
theorem travN_empty_aux (k : Nat) :
    (∀ root parent n, sizeOf n ≤ k →
      travN emptyVisitor root parent n = .ok (.node n))
    ∧ (∀ root pr l, sizeOf l ≤ k →
      travList emptyVisitor root pr l = .ok l)
    ∧ (∀ root pr o, sizeOf o ≤ k →
      travOpt emptyVisitor root pr o = .ok o)
    ∧ (∀ root pr o, sizeOf o ≤ k →
      travOptList emptyVisitor root pr o = .ok o) := by
  induction k with
  | zero =>
    refine ⟨fun root parent n hsz => ?_, fun root pr l hsz => ?_,
      fun root pr o hsz => ?_, fun root pr o hsz => ?_⟩
    · exact absurd hsz (by have := sizeOf_node_pos n; omega)
    · exact absurd hsz (by have := sizeOf_nlist_pos l; omega)
    · exact absurd hsz (by have := sizeOf_nopt_pos o; omega)
    · exact absurd hsz (by have := sizeOf_noptlist_pos o; omega)
  | succ k ih =>
    obtain ⟨ihN, ihL, ihO, ihOL⟩ := ih
    refine ⟨fun root parent n hsz => ?_, fun root pr l hsz => ?_,
      fun root pr o hsz => ?_, fun root pr o hsz => ?_⟩
    · cases n with
      | Script cs =>
        have hcs : sizeOf cs ≤ k := by simp at hsz; omega
        simp [travN, ihL root (Node.Script cs) cs hcs, visit_empty,
          pure, Except.pure, Bind.bind, Except.bind]
      | CompoundList cs =>
        have hcs : sizeOf cs ≤ k := by simp at hsz; omega
        simp [travN, ihL root (Node.CompoundList cs) cs hcs, visit_empty,
          pure, Except.pure, Bind.bind, Except.bind]
      | Command nm p s =>
        have hnm : sizeOf nm ≤ k := by simp at hsz; omega
        have hp : sizeOf p ≤ k := by simp at hsz; omega
        have hs : sizeOf s ≤ k := by simp at hsz; omega
        simp [travN, ihO root (Node.Command nm p s) nm hnm,
          ihOL root (Node.Command nm p s) p hp, ihOL root (Node.Command nm p s) s hs,
          visit_empty, pure, Except.pure, Bind.bind, Except.bind]
      | Function nm body =>
        have hnm : sizeOf nm ≤ k := by simp at hsz; omega
        have hb : sizeOf body ≤ k := by simp at hsz; omega
        simp [travN, ihN root (some (Node.Function nm body)) nm hnm,
          ihN root (some (Node.Function nm body)) body hb, keepNode,
          visit_empty, pure, Except.pure, Bind.bind, Except.bind]
      | If c t e =>
        have hc : sizeOf c ≤ k := by simp at hsz; omega
        have ht : sizeOf t ≤ k := by simp at hsz; omega
        have he : sizeOf e ≤ k := by simp at hsz; omega
        simp [travN, ihO root (Node.If c t e) c hc, ihO root (Node.If c t e) t ht,
          ihO root (Node.If c t e) e he, visit_empty, pure, Except.pure,
          Bind.bind, Except.bind]
      | Name t => simp [travN, visit_empty, pure, Except.pure, Bind.bind, Except.bind]
      | Word t => simp [travN, visit_empty, pure, Except.pure, Bind.bind, Except.bind]
      | AssignmentWord t =>
        simp [travN, visit_empty, pure, Except.pure, Bind.bind, Except.bind]
    · cases l with
      | nil => simp [travList, pure, Except.pure]
      | cons c rest =>
        have hc : sizeOf c ≤ k := by simp at hsz; omega
        have hr : sizeOf rest ≤ k := by simp at hsz; omega
        simp [travList, ihN root (some pr) c hc, ihL root pr rest hr, spliced,
          pure, Except.pure, Bind.bind, Except.bind]
    · cases o with
      | none => simp [travOpt, pure, Except.pure]
      | some c =>
        have hc : sizeOf c ≤ k := by simp at hsz; omega
        simp [travOpt, ihN root (some pr) c hc, keepOptNode,
          pure, Except.pure, Bind.bind, Except.bind]
    · cases o with
      | none => simp [travOptList, pure, Except.pure]
      | some l =>
        have hl : sizeOf l ≤ k := by simp at hsz; omega
        simp [travOptList, ihL root pr l hl, pure, Except.pure, Bind.bind, Except.bind]

/-! Claim theorems. -/

/--
C3: for every node visited by `traverse`, the user visitor runs after the
Generic Descend Step has already descended into and rewritten the node's
children — `traverseNode` applies the user `visit` to the result of
`descendChildren`, never to the pre-descent node.
-/
theorem traversal_descend_then_visit (uv : Visitor) (root : Node) (parent : Option Node)
    (n d : Node) (hd : descendChildren uv root n = .ok d) :
    traverseNode uv root parent (.node n) = visit uv parent root (.node d) := by
  simp [traverseNode, travN_eq_descend_then_visit, hd, Bind.bind, Except.bind]

/--
Witness for C3: under a visitor that rewrites every `Word "a"` to
`Word "b"` and makes the `Command` handler report its name child's text,
the traversal of `Command (Word "a")` reports "b": the user handler
observed the rewritten child.
-/
theorem traversal_descend_then_visit_witness :
    traverseNode childObservingVisitor (.Script []) none
      (.node (.Command (some (.Word "a")) none none)) = .ok (.node (.Word "b")) := by
  have h := traversal_descend_then_visit childObservingVisitor (.Script []) none
    (.Command (some (.Word "a")) none none) (.Command (some (.Word "b")) none none)
    (by simp [descendChildren, travN, travOpt, travOptList, visit, childObservingVisitor,
      Node.typeTag, keepOptNode, pure, Except.pure, Bind.bind, Except.bind])
  rw [h]; rfl

/--
C4: `visit` keeps the original node when the resolved handler returns
undefined and adopts any other return value (null, a replacement node or
an array); with neither a type-specific handler nor a `defaultMethod`,
the node passes through unchanged.
-/
theorem visit_handler_return_contract (v : Visitor) (parent : Option Node) (root : Node)
    (n : Node) :
    (∀ h out, resolvedHandler v n = some h → h n parent root = .ok out →
      visit v parent root (.node n) = .ok (keptResult n out))
    ∧ (resolvedHandler v n = none → visit v parent root (.node n) = .ok (.node n)) := by
  constructor
  · intro h out hres hout
    unfold resolvedHandler at hres
    cases hh : v.handlers n.typeTag with
    | some h2 =>
      rw [hh] at hres
      injection hres with hres
      subst hres
      simp [visit, hh, hout, keptResult, pure, Except.pure, Bind.bind, Except.bind]
    | none =>
      rw [hh] at hres
      simp only at hres
      simp [visit, hh, hres, hout, keptResult, pure, Except.pure, Bind.bind, Except.bind]
  · intro hres
    unfold resolvedHandler at hres
    cases hh : v.handlers n.typeTag with
    | some h2 => rw [hh] at hres; exact absurd hres (by simp)
    | none =>
      rw [hh] at hres
      simp only at hres
      simp [visit, hh, hres, pure, Except.pure, Bind.bind, Except.bind]

/--
Witness for C4: a handler that returns null makes `visit` yield null (an
intentional deletion, not a no-op).
-/
theorem visit_handler_return_contract_witness :
    visit nullingVisitor none (.Script []) (.node (.Word "w")) = .ok .null :=
  (visit_handler_return_contract nullingVisitor none (.Script []) (.Word "w")).1
    (fun _ _ _ => .ok .null) .null rfl rfl

/--
Counterexample to C5 as stated: visiting `undefined` yields `null`, not
`undefined` — the absent-input guard of `visit` returns `null` for both
absent values.
-/
theorem visit_undefined_input_cex :
    visit emptyVisitor none (.Script []) .undefined ≠ .ok .undefined := by
  simp [visit]

/--
C5 (amended): for every absent input value, `visit` returns null
regardless of the visitor table: visiting null yields null and visiting
undefined also yields null.
-/
theorem visit_absent_input_returns_null (v : Visitor) (parent : Option Node) (root : Node) :
    visit v parent root .null = .ok .null ∧ visit v parent root .undefined = .ok .null :=
  ⟨rfl, rfl⟩

/--
C6: traversing any tree with the empty visitor table returns the tree
unchanged — the Generic Descend Step alone never alters structure.
-/
theorem traverse_empty_visitor_identity (T : Node) :
    traverse T emptyVisitor = .ok (.node T) :=
  (travN_empty_aux (sizeOf T)).1 T none T le_rfl

/--
Counterexample to C7 as stated: for an `If` node whose then-branch exists
but holds no commands, the generated source omits the `then` segment
entirely (the code tests the joined string for emptiness, not the branch
for existence), while the claim's formula would still emit `"then\n"`.
-/
theorem if_empty_then_branch_cex :
    sourceOf (.If (some (.CompoundList [])) (some (.CompoundList [])) none) = "if \n\nfi"
    ∧ ifSourceClaim (some (.CompoundList [])) (some (.CompoundList [])) none
      = "if \nthen\n\n\nfi"
    ∧ sourceOf (.If (some (.CompoundList [])) (some (.CompoundList [])) none)
      ≠ ifSourceClaim (some (.CompoundList [])) (some (.CompoundList [])) none :=
  ⟨rfl, rfl, by decide⟩

/--
C7 (amended): for every `If` node, the generated source is
`"if " ++ <clause-commands space-joined> ++ "\n"`, then
`"then\n" ++ <then-commands newline-joined> ++ "\n"` when that joined
string is non-empty (else nothing), then
`"else\n" ++ <else-commands space-joined> ++ "\n"` when that joined
string is non-empty (else nothing), then `"\nfi"`; in particular, with a
non-empty clause and then and no else branch the output is
`"if <clause>\nthen\n<then>\n\nfi"` with no else text.
-/
theorem if_source_formula (c t e : Option Node) :
    sourceOf (.If c t e) =
      "if " ++ String.intercalate " " ((branchCommands c).map sourceOf) ++ "\n"
        ++ (if String.intercalate "\n" ((branchCommands t).map sourceOf) = "" then ""
            else "then\n" ++ String.intercalate "\n" ((branchCommands t).map sourceOf) ++ "\n")
        ++ (if String.intercalate " " ((branchCommands e).map sourceOf) = "" then ""
            else "else\n" ++ String.intercalate " " ((branchCommands e).map sourceOf) ++ "\n")
        ++ "\nfi" := by
  simp only [sourceOf, optBranchJoin_eq]

/--
C8: for every `Command` node, the generated source is the prefix
sources space-joined, a literal space, the name's source (empty when
absent), a literal space, and the suffix sources space-joined — so an
empty prefix yields a leading space and an empty suffix a trailing one.
-/
theorem command_source_formula (nm : Option Node) (p s : Option (List Node)) :
    sourceOf (.Command nm p s) = commandSourceSpec nm p s := by
  cases p <;> cases s <;> cases nm <;>
    simp [sourceOf, commandSourceSpec, optListJoin, optSource, sourcesOf_eq_map,
      intercalate_nil]

/--
Counterexample to C9 as stated: `source` is an uncached getter, so after
mutating the command name's text from "x" to "y", re-reading the parent's
source yields the string computed from the mutated child (" y "), not the
original (stale) string (" x ") the claim predicts.
-/
theorem source_read_after_mutation_cex :
    sourceOf (setCmdNameText (.Command (some (.Word "x")) none none) "y") = " y "
    ∧ sourceOf (.Command (some (.Word "x")) none none) = " x "
    ∧ sourceOf (setCmdNameText (.Command (some (.Word "x")) none none) "y")
      ≠ sourceOf (.Command (some (.Word "x")) none none) :=
  ⟨rfl, rfl, by decide⟩

/--
C9 (amended): the `source` rule installed by code generation is a plain
getter with no memoization: every read recomputes the string from the
current children, so reading a command's source after mutating its name
text yields the string built from the new text, and the pre-mutation
read yields the one built from the old text.
-/
theorem source_recomputed_per_read (t s : String) :
    sourceOf (setCmdNameText (.Command (some (.Word t)) none none) s) = " " ++ s ++ " "
    ∧ sourceOf (.Command (some (.Word t)) none none) = " " ++ t ++ " " := by
  constructor <;>
    simp [setCmdNameText, Node.withText, sourceOf, optListJoin, optSource, sourcesOf]

/--
C1: a `Command` named `import` is resolved by taking the first
`Word`-typed suffix element as the path, parsing the resolved file,
collecting exactly the top-level `Function` commands of its tree,
renaming each to `<module>::<original-name>` where `<module>` is the
resolved file's basename with its extension stripped, and returning that
array as the replacement for the import command node.
-/
theorem import_inlines_renamed_functions (env : Env) (ctx : Context)
    (parent : Option Node) (root : Node) (nmo : Node) (pfx : Option (List Node))
    (sfx : List Node) (w : Node) (ws : List Node) (ast : Node) (content : String)
    (hname : nmo.textOf = "import")
    (hargv : sfx.filter isWordNode = w :: ws)
    (hfile : env.fs (resolvedImportPath env ctx w.textOf) = some content)
    (hparse : env.parseF content = .ok ast) :
    Context.Import env ctx (.Command (some nmo) pfx (some sfx)) =
      .ok (inlinedFunctions env (resolvedImportPath env ctx w.textOf) ast)
    ∧ Context.Command env ctx (.Command (some nmo) pfx (some sfx)) =
      .ok (.arr (inlinedFunctions env (resolvedImportPath env ctx w.textOf) ast))
    ∧ visit (Context.visitor env ctx) parent root
        (.node (.Command (some nmo) pfx (some sfx))) =
      .ok (.arr (inlinedFunctions env (resolvedImportPath env ctx w.textOf) ast)) := by
  have hargv2 : sfx.filter (fun c => c.typeTag == "Word") = w :: ws := by
    have hfn : (fun c : Node => c.typeTag == "Word") = isWordNode := by
      funext c; exact typeTag_word c
    rw [hfn, hargv]
  have hffn : (fun c : Node => c.typeTag == "Function") = isFunctionNode := by
    funext c; exact typeTag_function c
  have himp : Context.Import env ctx (.Command (some nmo) pfx (some sfx)) =
      .ok (inlinedFunctions env (resolvedImportPath env ctx w.textOf) ast) := by
    simp [Context.Import, hargv2, hfile, hparse, hffn, inlinedFunctions,
      pure, Except.pure, Bind.bind, Except.bind]
  have hcmd : Context.Command env ctx (.Command (some nmo) pfx (some sfx)) =
      .ok (.arr (inlinedFunctions env (resolvedImportPath env ctx w.textOf) ast)) := by
    simp [Context.Command, hname, himp, pure, Except.pure, Bind.bind, Except.bind]
  refine ⟨himp, hcmd, ?_⟩
  simp [visit, Context.visitor, Node.typeTag, hcmd, pure, Except.pure, Bind.bind, Except.bind]

/--
Witness for C1: importing `util` from `/proj/main.sh` over a filesystem
holding `/proj/util.sh` (found via the `.sh` fallback) whose parse result
has top-level function `greet` and a function `nested` inside an `if`:
the visitor replaces the import command by exactly the renamed
`util::greet`, leaving `nested` uncollected.
-/
theorem import_inlines_renamed_functions_witness :
    Context.Command envImp ctxImp importCmd =
      .ok (.arr [.Function (.Name "util::greet")
        (.CompoundList [.Command (some (.Word "echo")) none (some [.Word "hi"])])]) :=
  (import_inlines_renamed_functions envImp ctxImp none (.Script []) (.Word "import")
    none [.Word "util"] (.Word "util") [] (.Script
      [.Function (.Name "greet")
        (.CompoundList [.Command (some (.Word "echo")) none (some [.Word "hi"])]),
      .If (some (.CompoundList []))
        (some (.CompoundList [.Function (.Name "nested") (.CompoundList [])])) none])
    "UTILSRC" rfl rfl rfl rfl).2.1

/--
C2: resolving an import argument first tries the literal resolved path;
when that path does not exist on disk the `.sh`-suffixed path is used
instead; and when neither exists the import throws, so a run whose
script is that import command fails with an error and produces no
output.
-/
theorem import_resolution_fallback_and_failure (env : Env) (ctx : Context) (p : String) :
    ((env.fs (env.resolve (env.dirname ctx.filename) p)).isSome →
      resolvedImportPath env ctx p = env.resolve (env.dirname ctx.filename) p)
    ∧ (env.fs (env.resolve (env.dirname ctx.filename) p) = none →
      resolvedImportPath env ctx p = env.resolve (env.dirname ctx.filename) p ++ ".sh")
    ∧ (env.fs (env.resolve (env.dirname ctx.filename) p) = none →
      env.fs (env.resolve (env.dirname ctx.filename) p ++ ".sh") = none →
      (∃ e, Context.Import env ctx
        (.Command (some (.Word "import")) none (some [.Word p])) = .error e)
      ∧ (ctx.ast = .Script [.Command (some (.Word "import")) none (some [.Word p])] →
        ∃ e, Context.process env ctx = .error e)) := by
  refine ⟨fun h1 => ?_, fun h1 => ?_, fun h1 h2 => ⟨?_, fun hast => ?_⟩⟩
  · simp [resolvedImportPath, h1]
  · simp [resolvedImportPath, h1]
  · exact ⟨"ENOENT: no such file or directory: "
      ++ (env.resolve (env.dirname ctx.filename) p ++ ".sh"),
      by simp [Context.Import, resolvedImportPath, h1, h2, Node.typeTag,
        Node.textOf, pure, Except.pure, Bind.bind, Except.bind]⟩
  · have hE : Context.process env ctx = .error ("ENOENT: no such file or directory: "
        ++ (env.resolve (env.dirname ctx.filename) p ++ ".sh")) := by
      simp [Context.process, traverse, traverseNode, hast, travN, travList, travOpt,
        travOptList, visit, Context.visitor, Node.typeTag, Context.Command, Node.textOf,
        Context.Import, resolvedImportPath, h1, h2, spliced, keepOptNode,
        pure, Except.pure, Bind.bind, Except.bind]
    exact ⟨_, hE⟩

/--
Witness for C2: with an empty filesystem, processing a script that is a
single `import missing` command fails with an error.
-/
theorem import_resolution_fallback_and_failure_witness :
    ∃ e, Context.process envTriv ctxMissing = .error e :=
  ((import_resolution_fallback_and_failure envTriv ctxMissing "missing").2.2 rfl rfl).2 rfl

/--
C10: a `Command` with no name, or with any name other than `import`,
makes the import resolver's `Command` visitor return undefined, so
`visit` keeps the command node unchanged and no error is raised.
-/
theorem non_import_command_unchanged (env : Env) (ctx : Context)
    (parent : Option Node) (root : Node) (nmo : Option Node)
    (p s : Option (List Node))
    (hno : nmo = none ∨ ∃ nm, nmo = some nm ∧ nm.textOf ≠ "import") :
    Context.Command env ctx (.Command nmo p s) = .ok .undefined
    ∧ visit (Context.visitor env ctx) parent root (.node (.Command nmo p s)) =
      .ok (.node (.Command nmo p s)) := by
  have hcmd : Context.Command env ctx (.Command nmo p s) = .ok .undefined := by
    rcases hno with hnone | ⟨nm, hsome, hne⟩
    · subst hnone; simp [Context.Command, pure, Except.pure]
    · subst hsome; simp [Context.Command, hne, pure, Except.pure]
  refine ⟨hcmd, ?_⟩
  simp [visit, Context.visitor, Node.typeTag, hcmd, pure, Except.pure, Bind.bind, Except.bind]

/--
Witness for C10: a bare assignment command (no name) passes through
the resolver's visitor unchanged.
-/
theorem non_import_command_unchanged_witness :
    Context.Command envTriv ctxTriv (.Command none (some [.AssignmentWord "A=1"]) none)
      = .ok .undefined
    ∧ visit (Context.visitor envTriv ctxTriv) none (.Script [])
        (.node (.Command none (some [.AssignmentWord "A=1"]) none)) =
      .ok (.node (.Command none (some [.AssignmentWord "A=1"]) none)) :=
  non_import_command_unchanged envTriv ctxTriv none (.Script []) none
    (some [.AssignmentWord "A=1"]) none (Or.inl rfl)

end Shlep
